import Mathlib

/- Verification of the desktop-set grouping engine of the
SSBAS inventory management system (`src/utils/assetGrouping.ts`).

Modelling conventions for the shallow embedding:
* TypeScript strings are Lean `String`; nullable / possibly-`undefined`
  values are `Option`.
* JS numbers are modelled as exact rationals `ℚ`.
* `String.prototype.localeCompare` is modelled as code-point lexicographic
  comparison; on the strings compared here (ASCII digit, hyphen and letter
  strings) the default host comparison and code-point order agree on every
  comparison the claims mention.
* `Array.prototype.sort` is stable; it is modelled by `List.insertionSort`,
  also stable.  The comparator used here never declares two distinct
  produced sets equivalent, so every stable sort yields the same list.
* A JS `Map` with string keys is an insertion-ordered association list
  (`List (String × List Asset)`), and a plain object used as a dictionary
  is an insertion-ordered `List (String × Asset)`.
-/

/-- The characters removed by `String.prototype.trim` (ECMAScript WhiteSpace
and LineTerminator code points). -/
def jsWhitespaceChar (c : Char) : Bool :=
  c = ' ' || ('\u0009' ≤ c && c ≤ '\u000D') || c = ' ' || c = ' ' ||
  (' ' ≤ c && c ≤ ' ') || c = ' ' || c = ' ' ||
  c = ' ' || c = ' ' || c = '　' || c = '﻿'

/-- Model of `assetTagging.trim()`. -/
def jsTrim (s : String) : String :=
  ⟨((s.data.dropWhile jsWhitespaceChar).reverse.dropWhile jsWhitespaceChar).reverse⟩

/-- `PeripheralInfo` from `assetGrouping.ts`.  The TS annotation narrows
`type` to the four literal codes, but at runtime the field holds the
case-preserved matched substring (the regex is case-insensitive and the
value is `match[1]` with only a type-level cast), so it is a `String`
here. -/
structure PeripheralInfo where
  type : Option String
  financialYear : Option String
  setId : Option String
  isPeripheral : Bool
deriving Repr, DecidableEq

/-- Case-insensitive match of one input character against a lowercase ASCII
pattern letter, as the ECMAScript `i` flag canonicalizes (ASCII folding;
non-ASCII characters never canonicalize to ASCII). -/
def ciChar (c lower : Char) : Bool := c.toLower = lower

/-- The anchored case-insensitive regex of `parseAssetTag`, acting on the
trimmed tag: literal `SSBAS`, slash, a type code `Mo`, `Ko`, `Ro` or `Co`,
slash, four digits, hyphen, two digits, slash, `T` and one or more digits.
Returns the three captured groups. -/
def matchTag : List Char → Option (List Char × List Char × List Char)
  | a :: b :: c :: d :: e :: s1 :: t1 :: t2 :: s2 ::
      y1 :: y2 :: y3 :: y4 :: h :: y5 :: y6 :: s3 :: tc :: rest =>
    if s1 = '/' && s2 = '/' && s3 = '/' && h = '-' &&
        ciChar a 's' && ciChar b 's' && ciChar c 'b' && ciChar d 'a' && ciChar e 's' &&
        (ciChar t1 'm' || ciChar t1 'k' || ciChar t1 'r' || ciChar t1 'c') && ciChar t2 'o' &&
        y1.isDigit && y2.isDigit && y3.isDigit && y4.isDigit && y5.isDigit && y6.isDigit &&
        (tc = 'T' || tc = 't') && !rest.isEmpty && rest.all Char.isDigit
    then some ([t1, t2], [y1, y2, y3, y4, '-', y5, y6], tc :: rest)
    else none
  | _ => none

/-- `parseAssetTag` from `assetGrouping.ts`. -/
def parseAssetTag (assetTagging : String) : PeripheralInfo :=
  let normalizedTag := jsTrim assetTagging
  match matchTag normalizedTag.data with
  | some (ty, fy, sid) =>
    { type := some (String.mk ty), financialYear := some (String.mk fy),
      setId := some (String.mk sid), isPeripheral := true }
  | none =>
    { type := none, financialYear := none, setId := none, isPeripheral := false }

/-- The `Asset` interface.  All fields other than `assetTagging` are
optional strings. -/
structure Asset where
  assetTagging : String
  assetClass : Option String := none
  assetSubClass : Option String := none
  description : Option String := none
  srNo : Option String := none
  serialNumber : Option String := none
  location : Option String := none
  dateOfPurchase : Option String := none
  taxInvoiceNo : Option String := none
  vendorSupplierNameAddress : Option String := none
  originalCost : Option String := none
  depreciationRate : Option String := none
  wdvAsMarch31 : Option String := none
  transferredDisposalDetails : Option String := none
  valuationAtTransferDisposal : Option String := none
  scrapValueRealised : Option String := none
  remarksAuthorisedSignatory : Option String := none
  createdAt : Option String := none
  updatedAt : Option String := none
deriving Repr, DecidableEq

/-- Property update on a JS object used as a dictionary (keeps the position
of an existing key, appends a new key). -/
def objSet (obj : List (String × Asset)) (k : String) (a : Asset) :
    List (String × Asset) :=
  match obj with
  | [] => [(k, a)]
  | (k1, v) :: rest => if k1 = k then (k, a) :: rest else (k1, v) :: objSet rest k a

/-- Property read on a JS object used as a dictionary. -/
def objLookup (obj : List (String × Asset)) (k : String) : Option Asset :=
  match obj with
  | [] => none
  | (k1, v) :: rest => if k1 = k then some v else objLookup rest k

/-- `getComponentKey` from `assetGrouping.ts`: the `Record` lookup, which at
runtime yields `undefined` for any string other than the four exact keys. -/
def getComponentKey (type : String) : Option String :=
  if type = "Mo" then some "monitor"
  else if type = "Ko" then some "keyboard"
  else if type = "Ro" then some "mouse"
  else if type = "Co" then some "cpu"
  else none

/-- The `DesktopSet` interface.  `components` is the JS object keyed by slot
name; when the case-preserved type code is not exactly one of the four map
keys, the source indexes the object with `undefined`, which JS coerces to
the property name `"undefined"` — the model does the same. -/
structure DesktopSet where
  setId : String
  financialYear : String
  displayName : String
  components : List (String × Asset)
  allAssets : List Asset
  completeness : ℚ
  location : Option String := none
  totalCost : ℚ
  isGrouped : Bool
deriving Repr, DecidableEq

/-- The result record of `groupAssetsIntoDesktopSets`. -/
structure GroupResult where
  desktopSets : List DesktopSet
  ungroupedAssets : List Asset
deriving Repr, DecidableEq

/-- The property name under which the loop body
`set.components[getComponentKey(info.type)] = asset` stores `asset`, when it
runs at all (`if (info.type)` requires a truthy, i.e. non-empty, type). -/
def assetSlotKey (a : Asset) : Option String :=
  match (parseAssetTag a.assetTagging).type with
  | some ty => if ty = "" then none else some ((getComponentKey ty).getD "undefined")
  | none => none

/-- One iteration of the `components.forEach` loop that organizes the bucket
into the `components` object. -/
def compStep (obj : List (String × Asset)) (asset : Asset) : List (String × Asset) :=
  match assetSlotKey asset with
  | some k => objSet obj k asset
  | none => obj

/-- The `components.forEach` loop of `groupAssetsIntoDesktopSets` that
organizes the bucket into the `components` object. -/
def buildComponents (components : List Asset) : List (String × Asset) :=
  components.foldl compStep []

/-- Model of `key.lastIndexOf('-')` followed by `key.substring(0, i)` and
`key.substring(i + 1)` (for a key with no hyphen, `lastIndexOf` is `-1` and
the two substrings are `""` and the whole key). -/
def jsLastDashSplit (key : String) : String × String :=
  match key.data.reverse.dropWhile (fun c => !(c = '-' : Bool)) with
  | [] => ("", key)
  | _ :: pre =>
    (⟨pre.reverse⟩, ⟨(key.data.reverse.takeWhile (fun c => !(c = '-' : Bool))).reverse⟩)

/-- Model of `setId.replace('T', '')`: `String.prototype.replace` with a
string pattern replaces only the first occurrence. -/
def removeFirstT : List Char → List Char
  | [] => []
  | c :: rest => if c = 'T' then rest else c :: removeFirstT rest

/-- Values of a spread JS `Set` built from a list: the distinct elements in
first-occurrence order. -/
def jsDedupGo : List String → List String → List String
  | [], _ => []
  | x :: xs, seen => if x ∈ seen then jsDedupGo xs seen else x :: jsDedupGo xs (x :: seen)

/-- Model of `[...new Set(locations)]`. -/
def jsDedup (l : List String) : List String := jsDedupGo l []

/-- `locations`: `components.map(a => a.location).filter(loc => !!loc)` —
drop `undefined` and empty strings. -/
def bucketLocations (components : List Asset) : List String :=
  (components.filterMap (fun a => a.location)).filter (fun loc => !(loc = "" : Bool))

def digitVal (c : Char) : ℕ := c.toNat - 48

def digitsToNat (l : List Char) : ℕ := l.foldl (fun n c => 10 * n + digitVal c) 0

/-- Exponent suffix of a `parseFloat` literal: if no digits follow the `e`,
`parseFloat` stops before it and keeps the mantissa. -/
def applyExp (m : ℚ) (r : List Char) : ℚ :=
  let signed : Int × List Char :=
    match r with
    | '-' :: t => (-1, t)
    | '+' :: t => (1, t)
    | _ => (1, r)
  let ds := signed.2.takeWhile Char.isDigit
  if ds = [] then m else m * (10 : ℚ) ^ (signed.1 * (digitsToNat ds : Int))

/-- Model of `parseFloat`: the longest numeric-literal prefix after leading
whitespace; `none` where `parseFloat` yields `NaN` (and for the non-finite
`Infinity` spellings, which have no rational value). -/
def jsParseFloat (s : String) : Option ℚ :=
  let l := s.data.dropWhile jsWhitespaceChar
  let signed : ℚ × List Char :=
    match l with
    | '-' :: r => (-1, r)
    | '+' :: r => (1, r)
    | _ => (1, l)
  let intPart := signed.2.takeWhile Char.isDigit
  let l2 := signed.2.dropWhile Char.isDigit
  let withFrac : List Char × List Char :=
    match l2 with
    | '.' :: r => (r.takeWhile Char.isDigit, r.dropWhile Char.isDigit)
    | _ => ([], l2)
  if intPart = [] ∧ withFrac.1 = [] then none
  else
    let mantissa : ℚ :=
      signed.1 * ((digitsToNat intPart : ℚ) +
        (digitsToNat withFrac.1 : ℚ) / (10 : ℚ) ^ withFrac.1.length)
    match withFrac.2 with
    | 'e' :: r => some (applyExp mantissa r)
    | 'E' :: r => some (applyExp mantissa r)
    | _ => some mantissa

/-- The `setsMap.forEach` reduction body: one bucket (composite key plus its
asset list) to a `DesktopSet`. -/
def buildSet (entry : String × List Asset) : DesktopSet :=
  let key := entry.1
  let components := entry.2
  let fySid := jsLastDashSplit key
  let financialYear := fySid.1
  let setId := fySid.2
  let setNumber := String.mk (removeFirstT setId.data)
  let comps := buildComponents components
  let totalCost : ℚ :=
    match components with
    | [] => 0
    | first :: _ =>
      match first.originalCost with
      | some c => if c = "" then 0 else (jsParseFloat c).getD 0
      | none => 0
  let locations := bucketLocations components
  let location : Option String :=
    if locations = [] then none
    else if (jsDedup locations).length = 1 then some (jsDedup locations).headI
    else some "Mixed Locations"
  { setId := setId, financialYear := financialYear,
    displayName := "Desktop Set " ++ setNumber ++ " (" ++ financialYear ++ ")",
    components := comps,
    allAssets := components,
    completeness := ((comps.length : ℚ) / 4) * 100,
    location := location,
    totalCost := totalCost,
    isGrouped := true }

/-- `setsMap.get(key)!.push(asset)` after `setsMap.set(key, [])` when absent:
append to the bucket of `key`, keeping `Map` insertion order of keys. -/
def mapPush (m : List (String × List Asset)) (k : String) (a : Asset) :
    List (String × List Asset) :=
  match m with
  | [] => [(k, [a])]
  | (k1, bucket) :: rest =>
    if k1 = k then (k1, bucket ++ [a]) :: rest else (k1, bucket) :: mapPush rest k a

/-- The `peripheralAssets.forEach` bucketing body: parse again, and on a
truthy `isPeripheral`, `setId` and `financialYear` push under the composite
template key. -/
def stepMap (m : List (String × List Asset)) (asset : Asset) :
    List (String × List Asset) :=
  let info := parseAssetTag asset.assetTagging
  match info.setId, info.financialYear with
  | some sid, some fy =>
    if info.isPeripheral ∧ sid ≠ "" ∧ fy ≠ "" then mapPush m (fy ++ "-" ++ sid) asset
    else m
  | _, _ => m

/-- Code-point comparison of two characters. -/
def charCmp (a b : Char) : Ordering := compare a.toNat b.toNat

/-- Lexicographic code-point comparison of two character lists. -/
def lexCmp : List Char → List Char → Ordering
  | [], [] => .eq
  | [], _ :: _ => .lt
  | _ :: _, [] => .gt
  | a :: as, b :: bs =>
    match charCmp a b with
    | .eq => lexCmp as bs
    | o => o

/-- Model of `x.localeCompare(y)` as code-point lexicographic comparison. -/
def jsLocaleCompare (x y : String) : Int :=
  match lexCmp x.data y.data with
  | .lt => -1
  | .eq => 0
  | .gt => 1

/-- The comparator passed to `desktopSets.sort`. -/
def setCompare (a b : DesktopSet) : Int :=
  let yearCompare := jsLocaleCompare b.financialYear a.financialYear
  if yearCompare ≠ 0 then yearCompare
  else jsLocaleCompare a.setId b.setId

/-- The sort relation induced by the comparator (`compare(a, b) <= 0`). -/
def setLe (a b : DesktopSet) : Prop := setCompare a b ≤ 0

instance : DecidableRel setLe := fun a b => inferInstanceAs (Decidable (setCompare a b ≤ 0))

/-- `groupAssetsIntoDesktopSets` from `assetGrouping.ts`.  The two `forEach`
partition pushes are the two filters; the `Map` is the insertion-ordered
association list folded by `stepMap`; `sort` is a stable sort by the
comparator. -/
def groupAssetsIntoDesktopSets (assets : List Asset) : GroupResult :=
  let peripheralAssets := assets.filter (fun a => (parseAssetTag a.assetTagging).isPeripheral)
  let ungroupedAssets := assets.filter (fun a => !(parseAssetTag a.assetTagging).isPeripheral)
  let setsMap := peripheralAssets.foldl stepMap []
  let desktopSets := List.insertionSort setLe (setsMap.map buildSet)
  { desktopSets := desktopSets, ungroupedAssets := ungroupedAssets }

/-- `getSetIdentifier` from `assetGrouping.ts`. -/
def getSetIdentifier (assetTagging : String) : Option String :=
  let info := parseAssetTag assetTagging
  match info.setId, info.financialYear with
  | some sid, some fy =>
    if info.isPeripheral ∧ sid ≠ "" ∧ fy ≠ "" then some (fy ++ "-" ++ sid) else none
  | _, _ => none

/-- Case-insensitive equality of two character lists, as the claim's grammar
reads tokens (ASCII case folding). -/
def ciEqList (xs ys : List Char) : Bool :=
  decide (xs.map Char.toLower = ys.map Char.toLower)

/-- Specification-side token: one of `Mo`, `Ko`, `Ro`, `Co`,
case-insensitively. -/
def isTypeTok (ty : List Char) : Bool :=
  [['M', 'o'], ['K', 'o'], ['R', 'o'], ['C', 'o']].any (fun t => ciEqList ty t)

/-- Specification-side token: exactly four digits, a hyphen, exactly two
digits. -/
def isFYTok (fy : List Char) : Bool :=
  match fy with
  | [a, b, c, d, h, e, f] =>
    a.isDigit && b.isDigit && c.isDigit && d.isDigit &&
      decide (h = '-') && e.isDigit && f.isDigit
  | _ => false

/-- Specification-side token: a literal `T` (case-insensitively) followed by
one or more digits. -/
def isSetTok (sid : List Char) : Bool :=
  match sid with
  | [] => false
  | tc :: ds => (decide (tc = 'T') || decide (tc = 't')) && !ds.isEmpty && ds.all Char.isDigit

/-- Specification-side statement that the (trimmed) tag `t` matches the
claimed grammar with type, financial-year and set-id substrings
`ty`, `fy`, `sid`. -/
def grammarSplit (t : String) (ty fy sid : List Char) : Prop :=
  ∃ pre : List Char,
    t.data = pre ++ '/' :: (ty ++ '/' :: (fy ++ '/' :: sid)) ∧
    ciEqList pre ['S', 'S', 'B', 'A', 'S'] = true ∧
    isTypeTok ty = true ∧ isFYTok fy = true ∧ isSetTok sid = true

theorem ciEqList_iff {xs ys : List Char} :
    ciEqList xs ys = true ↔ xs.map Char.toLower = ys.map Char.toLower := by
  simp [ciEqList]

theorem exists_five_of_map {p : List Char} {w1 w2 w3 w4 w5 : Char}
    (h : p.map Char.toLower = [w1, w2, w3, w4, w5]) :
    ∃ a b c d e, p = [a, b, c, d, e] := by
  rcases p with _ | ⟨a, _ | ⟨b, _ | ⟨c, _ | ⟨d, _ | ⟨e, _ | ⟨x, p⟩⟩⟩⟩⟩⟩ <;> simp at h
  exact ⟨a, b, c, d, e, rfl⟩

theorem isTypeTok_shape {ty : List Char} (h : isTypeTok ty = true) :
    ∃ t1 t2, ty = [t1, t2] ∧
      (t1.toLower = 'm' ∨ t1.toLower = 'k' ∨ t1.toLower = 'r' ∨ t1.toLower = 'c') ∧
      t2.toLower = 'o' := by
  simp only [isTypeTok, List.any_cons, List.any_nil, Bool.or_eq_true, Bool.or_false,
    ciEqList_iff] at h
  rcases ty with _ | ⟨t1, _ | ⟨t2, _ | ⟨z, ty⟩⟩⟩
  · rcases h with h | h | h | h <;> exact absurd h (by simp)
  · rcases h with h | h | h | h <;> exact absurd h (by simp)
  case cons.cons.cons =>
    rcases h with h | h | h | h <;> exact absurd h (by simp)
  refine ⟨t1, t2, rfl, ?_, ?_⟩
  · rcases h with h | h | h | h <;>
      simp only [List.map_cons, List.map_nil, List.cons.injEq] at h
    · exact Or.inl (h.1.trans (by decide))
    · exact Or.inr (Or.inl (h.1.trans (by decide)))
    · exact Or.inr (Or.inr (Or.inl (h.1.trans (by decide))))
    · exact Or.inr (Or.inr (Or.inr (h.1.trans (by decide))))
  · rcases h with h | h | h | h <;>
      simp only [List.map_cons, List.map_nil, List.cons.injEq] at h <;>
      exact h.2.1.trans (by decide)

theorem isFYTok_shape {fy : List Char} (h : isFYTok fy = true) :
    ∃ y1 y2 y3 y4 y5 y6, fy = [y1, y2, y3, y4, '-', y5, y6] ∧
      y1.isDigit = true ∧ y2.isDigit = true ∧ y3.isDigit = true ∧
      y4.isDigit = true ∧ y5.isDigit = true ∧ y6.isDigit = true := by
  unfold isFYTok at h
  split at h
  next a b c d hd e f =>
    simp only [Bool.and_eq_true, decide_eq_true_eq] at h
    obtain ⟨⟨⟨⟨⟨⟨h1, h2⟩, h3⟩, h4⟩, hhd⟩, h5⟩, h6⟩ := h
    subst hhd
    exact ⟨a, b, c, d, e, f, rfl, h1, h2, h3, h4, h5, h6⟩
  next => exact absurd h (by simp)

theorem isSetTok_shape {sid : List Char} (h : isSetTok sid = true) :
    ∃ tc ds, sid = tc :: ds ∧ (tc = 'T' ∨ tc = 't') ∧ ds ≠ [] ∧
      ds.all Char.isDigit = true := by
  unfold isSetTok at h
  split at h
  next => exact absurd h (by simp)
  next tc ds =>
    simp only [Bool.and_eq_true, Bool.or_eq_true, decide_eq_true_eq,
      Bool.not_eq_true'] at h
    refine ⟨tc, ds, rfl, h.1.1, ?_, h.2⟩
    intro hnil
    subst hnil
    exact absurd h.1.2 (by simp)

/-- The regex engine of `parseAssetTag` accepts exactly the decompositions
described by the claimed grammar, and captures exactly the three
decomposition substrings. -/
theorem matchTag_eq_some_iff {l ty fy sid : List Char} :
    matchTag l = some (ty, fy, sid) ↔
      ∃ pre : List Char,
        l = pre ++ '/' :: (ty ++ '/' :: (fy ++ '/' :: sid)) ∧
        ciEqList pre ['S', 'S', 'B', 'A', 'S'] = true ∧
        isTypeTok ty = true ∧ isFYTok fy = true ∧ isSetTok sid = true := by
  constructor
  · intro h
    unfold matchTag at h
    split at h
    next a b c d e s1 t1 t2 s2 y1 y2 y3 y4 hd y5 y6 s3 tc rest =>
      split at h
      next hg =>
        simp only [Option.some.injEq, Prod.mk.injEq] at h
        obtain ⟨hty, hfy, hsid⟩ := h
        subst hty; subst hfy; subst hsid
        simp only [Bool.and_eq_true, Bool.or_eq_true, ciChar, decide_eq_true_eq] at hg
        obtain ⟨⟨⟨⟨⟨⟨⟨⟨⟨⟨⟨⟨⟨⟨⟨⟨⟨⟨⟨hs1, hs2⟩, hs3⟩, hhd⟩, ha⟩, hb⟩, hc⟩, hd2⟩, he⟩, ht1⟩, ht2⟩, hy1⟩, hy2⟩, hy3⟩, hy4⟩, hy5⟩, hy6⟩, htc⟩, hrest⟩, hall⟩ := hg
        subst hs1; subst hs2; subst hs3; subst hhd
        refine ⟨[a, b, c, d, e], rfl, ?_, ?_, ?_, ?_⟩
        · rw [ciEqList_iff]
          simp [ha, hb, hc, hd2, he]
        · simp only [isTypeTok, List.any_cons, List.any_nil, Bool.or_eq_true,
            Bool.or_false, ciEqList_iff]
          rcases ht1 with ((h1 | h1) | h1) | h1 <;> simp [h1, ht2]
        · simp [isFYTok, hy1, hy2, hy3, hy4, hy5, hy6]
        · simp only [isSetTok, Bool.and_eq_true, Bool.or_eq_true, decide_eq_true_eq]
          exact ⟨⟨htc, hrest⟩, hall⟩
      next => exact absurd h (by simp)
    next => exact absurd h (by simp)
  · rintro ⟨pre, rfl, hpre, hty, hfy, hsid⟩
    rw [ciEqList_iff,
      show List.map Char.toLower ['S', 'S', 'B', 'A', 'S'] = ['s', 's', 'b', 'a', 's']
        from by decide] at hpre
    obtain ⟨a, b, c, d, e, rfl⟩ := exists_five_of_map hpre
    simp only [List.map_cons, List.map_nil, List.cons.injEq, and_true] at hpre
    obtain ⟨ha, hb, hc, hd2, he⟩ := hpre
    obtain ⟨t1, t2, rfl, ht1, ht2⟩ := isTypeTok_shape hty
    obtain ⟨y1, y2, y3, y4, y5, y6, rfl, hy1, hy2, hy3, hy4, hy5, hy6⟩ := isFYTok_shape hfy
    obtain ⟨tc, ds, rfl, htc, hds, hall⟩ := isSetTok_shape hsid
    have hdse : ds.isEmpty = false := by
      rcases ds with _ | ⟨u, ds⟩
      · exact absurd rfl hds
      · rfl
    show matchTag (a :: b :: c :: d :: e :: '/' :: t1 :: t2 :: '/' ::
      y1 :: y2 :: y3 :: y4 :: '-' :: y5 :: y6 :: '/' :: tc :: ds) = _
    unfold matchTag
    rcases ht1 with h1 | h1 | h1 | h1 <;> rcases htc with h2 | h2 <;> subst h2 <;>
      simp [ciChar, ha, hb, hc, hd2, he, h1, ht2, hy1, hy2, hy3, hy4, hy5, hy6, hdse, hall]

theorem parseAssetTag_eq_of_matchTag_some {s : String} {t f i : List Char}
    (h : matchTag (jsTrim s).data = some (t, f, i)) :
    parseAssetTag s = ⟨some ⟨t⟩, some ⟨f⟩, some ⟨i⟩, true⟩ := by
  simp [parseAssetTag, h]

theorem parseAssetTag_eq_of_matchTag_none {s : String}
    (h : matchTag (jsTrim s).data = none) :
    parseAssetTag s = ⟨none, none, none, false⟩ := by
  simp [parseAssetTag, h]

theorem matchTag_of_parse_peripheral {s ty fy sid : String}
    (h : parseAssetTag s = ⟨some ty, some fy, some sid, true⟩) :
    matchTag (jsTrim s).data = some (ty.data, fy.data, sid.data) := by
  rcases hm : matchTag (jsTrim s).data with _ | ⟨t, f, i⟩
  · rw [parseAssetTag_eq_of_matchTag_none hm] at h
    exact absurd h (by simp)
  · rw [parseAssetTag_eq_of_matchTag_some hm] at h
    simp only [PeripheralInfo.mk.injEq, Option.some.injEq, and_true] at h
    obtain ⟨h1, h2, h3⟩ := h
    subst h1; subst h2; subst h3
    rfl

theorem parse_not_peripheral_shape {s : String}
    (h : (parseAssetTag s).isPeripheral = false) :
    parseAssetTag s = ⟨none, none, none, false⟩ := by
  rcases hm : matchTag (jsTrim s).data with _ | ⟨t, f, i⟩
  · exact parseAssetTag_eq_of_matchTag_none hm
  · rw [parseAssetTag_eq_of_matchTag_some hm] at h
    exact absurd h (by simp)

theorem parse_peripheral_shape {s : String}
    (h : (parseAssetTag s).isPeripheral = true) :
    ∃ ty fy sid : String, parseAssetTag s = ⟨some ty, some fy, some sid, true⟩ := by
  rcases hm : matchTag (jsTrim s).data with _ | ⟨t, f, i⟩
  · rw [parseAssetTag_eq_of_matchTag_none hm] at h
    exact absurd h (by simp)
  · exact ⟨⟨t⟩, ⟨f⟩, ⟨i⟩, parseAssetTag_eq_of_matchTag_some hm⟩

theorem parse_tokens {s ty fy sid : String}
    (h : parseAssetTag s = ⟨some ty, some fy, some sid, true⟩) :
    isTypeTok ty.data = true ∧ isFYTok fy.data = true ∧ isSetTok sid.data = true := by
  have hm := matchTag_of_parse_peripheral h
  rw [matchTag_eq_some_iff] at hm
  obtain ⟨pre, -, -, h1, h2, h3⟩ := hm
  exact ⟨h1, h2, h3⟩

theorem isSetTok_ne_empty {sid : String} (h : isSetTok sid.data = true) : sid ≠ "" := by
  obtain ⟨tc, ds, hshape, -, -, -⟩ := isSetTok_shape h
  intro hs
  rw [hs] at hshape
  exact absurd hshape (by simp)

theorem isFYTok_ne_empty {fy : String} (h : isFYTok fy.data = true) : fy ≠ "" := by
  obtain ⟨y1, y2, y3, y4, y5, y6, hshape, -⟩ := isFYTok_shape h
  intro hs
  rw [hs] at hshape
  exact absurd hshape (by simp)

theorem dash_not_mem_of_isSetTok {sid : List Char} (h : isSetTok sid = true) :
    '-' ∉ sid := by
  obtain ⟨tc, ds, rfl, htc, -, hall⟩ := isSetTok_shape h
  intro hmem
  rcases List.mem_cons.mp hmem with h1 | h1
  · rcases htc with h2 | h2 <;> rw [h2] at h1 <;> exact absurd h1 (by decide)
  · rw [List.all_eq_true] at hall
    have := hall _ h1
    exact absurd this (by decide)

theorem dropWhile_append_of_all {p : Char → Bool} {xs ys : List Char}
    (h : ∀ x ∈ xs, p x = true) :
    (xs ++ ys).dropWhile p = ys.dropWhile p := by
  induction xs with
  | nil => rfl
  | cons a l ih =>
    simp only [List.cons_append, List.dropWhile_cons, h a (List.mem_cons_self a l), if_true]
    exact ih (fun x hx => h x (List.mem_cons_of_mem a hx))

theorem takeWhile_append_of_all {p : Char → Bool} {xs ys : List Char}
    (h : ∀ x ∈ xs, p x = true) :
    (xs ++ ys).takeWhile p = xs ++ ys.takeWhile p := by
  induction xs with
  | nil => rfl
  | cons a l ih =>
    simp only [List.cons_append, List.takeWhile_cons, h a (List.mem_cons_self a l), if_true]
    rw [ih (fun x hx => h x (List.mem_cons_of_mem a hx))]

theorem lastDashSplit_concat {fyl sidl : List Char} (h : '-' ∉ sidl) :
    jsLastDashSplit ⟨fyl ++ '-' :: sidl⟩ = (⟨fyl⟩, ⟨sidl⟩) := by
  have hall : ∀ x ∈ sidl.reverse, (fun c => !(c = '-' : Bool)) x = true := by
    intro x hx
    rw [List.mem_reverse] at hx
    simp only [Bool.not_eq_true', decide_eq_false_iff_not]
    intro heq
    exact h (heq ▸ hx)
  have hrev : (String.mk (fyl ++ '-' :: sidl)).data.reverse =
      sidl.reverse ++ '-' :: fyl.reverse := by
    show (fyl ++ '-' :: sidl).reverse = _
    rw [List.reverse_append, List.reverse_cons, List.append_assoc]
    rfl
  unfold jsLastDashSplit
  rw [hrev, dropWhile_append_of_all hall, takeWhile_append_of_all hall]
  simp [List.dropWhile_cons, List.takeWhile_cons]

theorem string_data_concat (fy sid : String) :
    (fy ++ "-" ++ sid).data = fy.data ++ '-' :: sid.data := by
  rcases fy with ⟨fyl⟩
  rcases sid with ⟨sidl⟩
  simp [String.data_append]

theorem lastDashSplit_key {fy sid : String} (h : '-' ∉ sid.data) :
    jsLastDashSplit (fy ++ "-" ++ sid) = (fy, sid) := by
  have hs : (fy ++ "-" ++ sid) = String.mk (fy.data ++ '-' :: sid.data) := by
    apply String.ext
    rw [string_data_concat]
  rw [hs, lastDashSplit_concat h]

/-- An asset that parses as a peripheral whose composite bucket key is `k`. -/
def ConformsWithKey (k : String) (a : Asset) : Prop :=
  ∃ ty fy sid : String,
    parseAssetTag a.assetTagging = ⟨some ty, some fy, some sid, true⟩ ∧ k = fy ++ "-" ++ sid

/-- Invariant of the bucketing `Map`: buckets are non-empty, hold only
assets conforming to their key, and keys are distinct. -/
def GoodMap (m : List (String × List Asset)) : Prop :=
  (∀ e ∈ m, e.2 ≠ [] ∧ ∀ a ∈ e.2, ConformsWithKey e.1 a) ∧ (m.map Prod.fst).Nodup

theorem mapPush_flatten (m : List (String × List Asset)) (k : String) (a : Asset) :
    ((mapPush m k a).map Prod.snd).flatten.Perm ((m.map Prod.snd).flatten ++ [a]) := by
  induction m with
  | nil => simp [mapPush]
  | cons e rest ih =>
    rcases e with ⟨k1, b⟩
    by_cases hk : k1 = k
    · simp only [mapPush, if_pos hk, List.map_cons, List.flatten_cons, List.append_assoc]
      exact List.Perm.append_left b List.perm_append_comm
    · simp only [mapPush, if_neg hk, List.map_cons, List.flatten_cons, List.append_assoc]
      exact List.Perm.append_left b (by simpa using ih)

theorem mapPush_fst_mem {m : List (String × List Asset)} {k x : String} {a : Asset} :
    x ∈ (mapPush m k a).map Prod.fst ↔ x ∈ m.map Prod.fst ∨ x = k := by
  induction m with
  | nil => simp [mapPush]
  | cons e rest ih =>
    rcases e with ⟨k1, b⟩
    by_cases hk : k1 = k
    · subst hk
      simp [mapPush]
      tauto
    · simp [mapPush, hk, ih]
      tauto

theorem mapPush_nodup {m : List (String × List Asset)} {k : String} {a : Asset}
    (h : (m.map Prod.fst).Nodup) : ((mapPush m k a).map Prod.fst).Nodup := by
  induction m with
  | nil => simp [mapPush]
  | cons e rest ih =>
    rcases e with ⟨k1, b⟩
    rw [List.map_cons, List.nodup_cons] at h
    by_cases hk : k1 = k
    · simpa [mapPush, if_pos hk, List.nodup_cons] using h
    · rw [mapPush, if_neg hk, List.map_cons, List.nodup_cons]
      refine ⟨?_, ih h.2⟩
      rw [mapPush_fst_mem]
      rintro (h1 | h1)
      · exact h.1 h1
      · exact hk h1

theorem mapPush_entries {m : List (String × List Asset)} {k : String} {a : Asset}
    (hconf : ConformsWithKey k a)
    (hm : ∀ e ∈ m, e.2 ≠ [] ∧ ∀ x ∈ e.2, ConformsWithKey e.1 x) :
    ∀ e ∈ mapPush m k a, e.2 ≠ [] ∧ ∀ x ∈ e.2, ConformsWithKey e.1 x := by
  induction m with
  | nil =>
    intro e he
    simp only [mapPush, List.mem_singleton] at he
    subst he
    refine ⟨by simp, ?_⟩
    intro x hx
    rw [List.mem_singleton] at hx
    subst hx
    exact hconf
  | cons e0 rest ih =>
    rcases e0 with ⟨k1, b⟩
    intro e he
    by_cases hk : k1 = k
    · rw [mapPush, if_pos hk] at he
      rcases List.mem_cons.mp he with h1 | h1
      · subst h1
        have hb := hm (k1, b) (List.mem_cons_self _ _)
        refine ⟨by simp, ?_⟩
        intro x hx
        rcases List.mem_append.mp hx with h2 | h2
        · exact hb.2 x h2
        · rw [List.mem_singleton] at h2
          subst h2
          exact hk ▸ hconf
      · exact hm e (List.mem_cons_of_mem _ h1)
    · rw [mapPush, if_neg hk] at he
      rcases List.mem_cons.mp he with h1 | h1
      · subst h1
        exact hm (k1, b) (List.mem_cons_self _ _)
      · exact ih (fun e2 he2 => hm e2 (List.mem_cons_of_mem _ he2)) e h1

theorem GoodMap_push {m : List (String × List Asset)} {k : String} {a : Asset}
    (hm : GoodMap m) (hconf : ConformsWithKey k a) : GoodMap (mapPush m k a) :=
  ⟨mapPush_entries hconf hm.1, mapPush_nodup hm.2⟩

theorem stepMap_peripheral {m : List (String × List Asset)} {a : Asset}
    {ty fy sid : String}
    (hp : parseAssetTag a.assetTagging = ⟨some ty, some fy, some sid, true⟩) :
    stepMap m a = mapPush m (fy ++ "-" ++ sid) a := by
  obtain ⟨-, hfy, hsid⟩ := parse_tokens hp
  simp [stepMap, hp, isSetTok_ne_empty hsid, isFYTok_ne_empty hfy]

theorem stepMap_not_peripheral {m : List (String × List Asset)} {a : Asset}
    (h : (parseAssetTag a.assetTagging).isPeripheral = false) : stepMap m a = m := by
  simp [stepMap, parse_not_peripheral_shape h]

theorem foldl_stepMap_flatten {l : List Asset} {m : List (String × List Asset)}
    (hl : ∀ a ∈ l, (parseAssetTag a.assetTagging).isPeripheral = true) :
    ((l.foldl stepMap m).map Prod.snd).flatten.Perm ((m.map Prod.snd).flatten ++ l) := by
  induction l generalizing m with
  | nil => simp
  | cons a l ih =>
    obtain ⟨ty, fy, sid, hp⟩ := parse_peripheral_shape (hl a (List.mem_cons_self _ _))
    rw [List.foldl_cons, stepMap_peripheral hp]
    refine (ih (fun x hx => hl x (List.mem_cons_of_mem _ hx))).trans ?_
    refine ((mapPush_flatten m _ a).append_right l).trans ?_
    rw [List.append_assoc]
    rfl

theorem foldl_stepMap_good {l : List Asset} {m : List (String × List Asset)}
    (hm : GoodMap m)
    (hl : ∀ a ∈ l, (parseAssetTag a.assetTagging).isPeripheral = true) :
    GoodMap (l.foldl stepMap m) := by
  induction l generalizing m with
  | nil => exact hm
  | cons a l ih =>
    obtain ⟨ty, fy, sid, hp⟩ := parse_peripheral_shape (hl a (List.mem_cons_self _ _))
    rw [List.foldl_cons, stepMap_peripheral hp]
    exact ih (GoodMap_push hm ⟨ty, fy, sid, hp, rfl⟩)
      (fun x hx => hl x (List.mem_cons_of_mem _ hx))

/-- The bucketing `Map` built by `groupAssetsIntoDesktopSets`. -/
def setsMapOf (assets : List Asset) : List (String × List Asset) :=
  (assets.filter (fun a => (parseAssetTag a.assetTagging).isPeripheral)).foldl stepMap []

theorem groupAssets_desktopSets (assets : List Asset) :
    (groupAssetsIntoDesktopSets assets).desktopSets =
      List.insertionSort setLe ((setsMapOf assets).map buildSet) := rfl

theorem groupAssets_ungrouped (assets : List Asset) :
    (groupAssetsIntoDesktopSets assets).ungroupedAssets =
      assets.filter (fun a => !(parseAssetTag a.assetTagging).isPeripheral) := rfl

theorem setsMapOf_good (assets : List Asset) : GoodMap (setsMapOf assets) :=
  foldl_stepMap_good ⟨by simp, by simp⟩
    (fun a ha => by simpa using (List.mem_filter.mp ha).2)

theorem setsMapOf_flatten (assets : List Asset) :
    ((setsMapOf assets).map Prod.snd).flatten.Perm
      (assets.filter (fun a => (parseAssetTag a.assetTagging).isPeripheral)) := by
  have := foldl_stepMap_flatten (l := assets.filter
      (fun a => (parseAssetTag a.assetTagging).isPeripheral)) (m := [])
    (fun a ha => by simpa using (List.mem_filter.mp ha).2)
  simpa using this

theorem mem_desktopSets {assets : List Asset} {s : DesktopSet} :
    s ∈ (groupAssetsIntoDesktopSets assets).desktopSets ↔
      ∃ e ∈ setsMapOf assets, s = buildSet e := by
  rw [groupAssets_desktopSets, (List.perm_insertionSort setLe _).mem_iff, List.mem_map]
  constructor
  · rintro ⟨e, he, rfl⟩
    exact ⟨e, he, rfl⟩
  · rintro ⟨e, he, rfl⟩
    exact ⟨e, he, rfl⟩

theorem buildSet_allAssets (e : String × List Asset) : (buildSet e).allAssets = e.2 := rfl

theorem buildSet_financialYear (e : String × List Asset) :
    (buildSet e).financialYear = (jsLastDashSplit e.1).1 := rfl

theorem buildSet_setId (e : String × List Asset) :
    (buildSet e).setId = (jsLastDashSplit e.1).2 := rfl

theorem buildSet_components (e : String × List Asset) :
    (buildSet e).components = buildComponents e.2 := rfl

/-- Every member of a bucket of the (well-formed) map parses to exactly the
financial year and set id that the bucket key decomposes to. -/
theorem goodEntry_members {assets : List Asset} {e : String × List Asset}
    (he : e ∈ setsMapOf assets) :
    ∀ a ∈ e.2, ∃ ty : String, parseAssetTag a.assetTagging =
      ⟨some ty, some (jsLastDashSplit e.1).1, some (jsLastDashSplit e.1).2, true⟩ := by
  have hg := (setsMapOf_good assets).1 e he
  intro a ha
  obtain ⟨ty, fy, sid, hp, hkey⟩ := hg.2 a ha
  obtain ⟨-, -, hsid⟩ := parse_tokens hp
  have hsplit : jsLastDashSplit e.1 = (fy, sid) := by
    rw [hkey]
    exact lastDashSplit_key (dash_not_mem_of_isSetTok hsid)
  rw [hsplit]
  exact ⟨ty, hp⟩

theorem char_toNat_inj {a b : Char} (h : a.toNat = b.toNat) : a = b :=
  Char.eq_of_val_eq (UInt32.eq_of_toBitVec_eq (BitVec.eq_of_toNat_eq h))

theorem charCmp_eq_eq {a b : Char} : charCmp a b = .eq ↔ a = b := by
  unfold charCmp
  rw [Nat.compare_eq_eq]
  exact ⟨char_toNat_inj, fun h => h ▸ rfl⟩

theorem charCmp_swap (a b : Char) : (charCmp a b).swap = charCmp b a := by
  unfold charCmp
  exact Nat.compare_swap _ _

theorem charCmp_lt_trans {a b c : Char} (h1 : charCmp a b = .lt) (h2 : charCmp b c = .lt) :
    charCmp a c = .lt := by
  unfold charCmp at h1 h2 ⊢
  rw [Nat.compare_eq_lt] at h1 h2 ⊢
  exact h1.trans h2

theorem lexCmp_eq_eq {l1 l2 : List Char} : lexCmp l1 l2 = .eq ↔ l1 = l2 := by
  induction l1 generalizing l2 with
  | nil => cases l2 <;> simp [lexCmp]
  | cons a as ih =>
    cases l2 with
    | nil => simp [lexCmp]
    | cons b bs =>
      rcases hab : charCmp a b with _ | _ | _ <;>
        simp only [lexCmp, hab, List.cons.injEq]
      · constructor
        · intro h
          exact Ordering.noConfusion h
        · rintro ⟨rfl, -⟩
          have heq := charCmp_eq_eq.mpr (rfl : a = a)
          rw [hab] at heq
          exact Ordering.noConfusion heq
      · rw [ih]
        simp [charCmp_eq_eq.mp hab]
      · constructor
        · intro h
          exact Ordering.noConfusion h
        · rintro ⟨rfl, -⟩
          have heq := charCmp_eq_eq.mpr (rfl : a = a)
          rw [hab] at heq
          exact Ordering.noConfusion heq

theorem lexCmp_swap (l1 l2 : List Char) : (lexCmp l1 l2).swap = lexCmp l2 l1 := by
  induction l1 generalizing l2 with
  | nil => cases l2 <;> rfl
  | cons a as ih =>
    cases l2 with
    | nil => rfl
    | cons b bs =>
      rcases hab : charCmp a b with _ | _ | _ <;>
        rw [lexCmp, lexCmp, hab, ← charCmp_swap a b, hab]
      · rfl
      · exact ih bs
      · rfl

theorem lexCmp_lt_trans {l1 l2 l3 : List Char} (h1 : lexCmp l1 l2 = .lt)
    (h2 : lexCmp l2 l3 = .lt) : lexCmp l1 l3 = .lt := by
  induction l1 generalizing l2 l3 with
  | nil =>
    cases l2 with
    | nil => exact absurd h1 (by simp [lexCmp])
    | cons b bs =>
      cases l3 with
      | nil => exact absurd h2 (by simp [lexCmp])
      | cons c cs => rfl
  | cons a as ih =>
    cases l2 with
    | nil => exact absurd h1 (by simp [lexCmp])
    | cons b bs =>
      cases l3 with
      | nil => exact absurd h2 (by simp [lexCmp])
      | cons c cs =>
        simp only [lexCmp] at h1 h2 ⊢
        rcases hab : charCmp a b with _ | _ | _
        · simp only [hab] at h1
          rcases hbc : charCmp b c with _ | _ | _
          · simp [charCmp_lt_trans hab hbc]
          · have h := charCmp_eq_eq.mp hbc
            subst h
            simp [hab]
          · simp only [hbc] at h2
            exact Ordering.noConfusion h2
        · have h := charCmp_eq_eq.mp hab
          subst h
          simp only [hab] at h1
          rcases hac : charCmp a c with _ | _ | _
          · simp [hac]
          · simp only [hac] at h2 ⊢
            exact ih h1 h2
          · simp only [hac] at h2
            exact Ordering.noConfusion h2
        · simp only [hab] at h1
          exact Ordering.noConfusion h1

theorem lexCmp_le_trans {l1 l2 l3 : List Char} (h1 : lexCmp l1 l2 ≠ .gt)
    (h2 : lexCmp l2 l3 ≠ .gt) : lexCmp l1 l3 ≠ .gt := by
  rcases hv1 : lexCmp l1 l2 with _ | _ | _
  · rcases hv2 : lexCmp l2 l3 with _ | _ | _
    · rw [lexCmp_lt_trans hv1 hv2]
      simp
    · rw [← lexCmp_eq_eq.mp hv2, hv1]
      simp
    · exact absurd hv2 h2
  · rw [lexCmp_eq_eq.mp hv1]
    exact h2
  · exact absurd hv1 h1

theorem setLe_iff {x y : DesktopSet} :
    setLe x y ↔ (lexCmp y.financialYear.data x.financialYear.data = .lt ∨
      (lexCmp y.financialYear.data x.financialYear.data = .eq ∧
        lexCmp x.setId.data y.setId.data ≠ .gt)) := by
  unfold setLe setCompare jsLocaleCompare
  rcases hfy : lexCmp y.financialYear.data x.financialYear.data with _ | _ | _ <;>
    simp only [hfy]
  · simp
  · rcases hsid : lexCmp x.setId.data y.setId.data with _ | _ | _ <;> simp [hsid]
  · simp

instance : IsTrans DesktopSet setLe := by
  constructor
  intro x y z hxy hyz
  rw [setLe_iff] at hxy hyz ⊢
  rcases hxy with h1 | ⟨h1, hs1⟩
  · rcases hyz with h2 | ⟨h2, -⟩
    · exact Or.inl (lexCmp_lt_trans h2 h1)
    · rw [lexCmp_eq_eq] at h2
      exact Or.inl (h2 ▸ h1)
  · rcases hyz with h2 | ⟨h2, hs2⟩
    · rw [lexCmp_eq_eq] at h1
      exact Or.inl (by rw [← h1]; exact h2)
    · refine Or.inr ⟨?_, lexCmp_le_trans hs1 hs2⟩
      rw [lexCmp_eq_eq] at h1 h2 ⊢
      exact h2.trans h1

instance : IsTotal DesktopSet setLe := by
  constructor
  intro x y
  rw [setLe_iff, setLe_iff]
  rcases hfy : lexCmp y.financialYear.data x.financialYear.data with _ | _ | _
  · exact Or.inl (Or.inl rfl)
  · have hfy2 : lexCmp x.financialYear.data y.financialYear.data = .eq := by
      rw [lexCmp_eq_eq] at hfy ⊢
      exact hfy.symm
    rcases hsid : lexCmp x.setId.data y.setId.data with _ | _ | _
    · exact Or.inl (Or.inr ⟨rfl, by decide⟩)
    · exact Or.inl (Or.inr ⟨rfl, by decide⟩)
    · refine Or.inr (Or.inr ⟨hfy2, ?_⟩)
      rw [← lexCmp_swap, hsid]
      decide
  · refine Or.inr (Or.inl ?_)
    rw [← lexCmp_swap, hfy]
    decide

theorem objLookup_objSet_self (obj : List (String × Asset)) (k : String) (a : Asset) :
    objLookup (objSet obj k a) k = some a := by
  induction obj with
  | nil => simp [objSet, objLookup]
  | cons e rest ih =>
    rcases e with ⟨k1, v⟩
    by_cases hk : k1 = k
    · simp [objSet, objLookup, hk]
    · simp [objSet, objLookup, hk, ih]

theorem objLookup_objSet_ne (obj : List (String × Asset)) {k k2 : String} (a : Asset)
    (h : k2 ≠ k) : objLookup (objSet obj k a) k2 = objLookup obj k2 := by
  have hne : ¬(k = k2) := fun hh => h hh.symm
  induction obj with
  | nil => simp [objSet, objLookup, hne]
  | cons e rest ih =>
    rcases e with ⟨k1, v⟩
    by_cases hk : k1 = k
    · subst hk
      simp [objSet, objLookup, hne]
    · simp [objSet, objLookup, hk, ih]

theorem getLast?_cons_eq (a : Asset) (xs : List Asset) :
    (a :: xs).getLast? = match xs.getLast? with
      | some b => some b
      | none => some a := by
  rcases hxs : xs.getLast? with _ | b
  · rw [List.getLast?_eq_none_iff] at hxs
    subst hxs
    rfl
  · rw [List.getLast?_eq_some_iff] at hxs
    obtain ⟨ys, rfl⟩ := hxs
    rw [show a :: (ys ++ [b]) = (a :: ys) ++ [b] from rfl, List.getLast?_concat]

theorem objLookup_foldl_compStep {l : List Asset} {obj : List (String × Asset)}
    {k : String} :
    objLookup (l.foldl compStep obj) k =
      match (l.filter (fun a => assetSlotKey a = some k)).getLast? with
      | some a => some a
      | none => objLookup obj k := by
  induction l generalizing obj with
  | nil => simp
  | cons a l ih =>
    rw [List.foldl_cons, List.filter_cons]
    rcases hsk : assetSlotKey a with _ | k2
    · rw [show compStep obj a = obj from by simp [compStep, hsk], ih]
      simp [hsk]
    · by_cases hk : k2 = k
      · subst hk
        rw [show compStep obj a = objSet obj k2 a from by simp [compStep, hsk], ih]
        rw [if_pos (by simp [hsk])]
        rw [getLast?_cons_eq]
        rcases hgl : (l.filter (fun x => assetSlotKey x = some k2)).getLast? with _ | b
        · simp [objLookup_objSet_self]
        · simp
      · rw [show compStep obj a = objSet obj k2 a from by simp [compStep, hsk], ih]
        rw [if_neg (by simp [hsk, hk])]
        rcases hgl : (l.filter (fun x => assetSlotKey x = some k)).getLast? with _ | b
        · simp [objLookup_objSet_ne obj a (fun hh : k = k2 => hk hh.symm)]
        · simp

/-- The `components` object maps each property name to the last asset of the
bucket stored under it (last-write-wins). -/
theorem buildComponents_lookup (components : List Asset) (k : String) :
    objLookup (buildComponents components) k =
      (components.filter (fun a => assetSlotKey a = some k)).getLast? := by
  rw [buildComponents, objLookup_foldl_compStep]
  rcases h : (components.filter (fun a => assetSlotKey a = some k)).getLast? with _ | b
  · rfl
  · rfl

theorem jsDedupGo_eq_nil {l seen : List String} :
    jsDedupGo l seen = [] ↔ ∀ x ∈ l, x ∈ seen := by
  induction l generalizing seen with
  | nil => simp [jsDedupGo]
  | cons a l ih =>
    by_cases h : a ∈ seen
    · simp [jsDedupGo, h, ih]
    · simp [jsDedupGo, h]

theorem jsDedup_eq_nil {l : List String} : jsDedup l = [] ↔ l = [] := by
  rw [jsDedup, jsDedupGo_eq_nil]
  simp [List.eq_nil_iff_forall_not_mem]

/-- Key well-formedness: every key of the bucketing map splits at its last
hyphen into the financial year and set id it was built from. -/
theorem setsMapOf_keys_wf {assets : List Asset} {k : String}
    (hk : k ∈ (setsMapOf assets).map Prod.fst) :
    ∃ fy sid : String, k = fy ++ "-" ++ sid ∧ jsLastDashSplit k = (fy, sid) := by
  rw [List.mem_map] at hk
  obtain ⟨e, he, rfl⟩ := hk
  have hg := (setsMapOf_good assets).1 e he
  rcases hb : e.2 with _ | ⟨a, rest⟩
  · exact absurd hb hg.1
  · have ha : a ∈ e.2 := by rw [hb]; exact List.mem_cons_self _ _
    obtain ⟨ty, fy, sid, hp, hkey⟩ := hg.2 a ha
    obtain ⟨-, -, hsid⟩ := parse_tokens hp
    exact ⟨fy, sid, hkey,
      hkey ▸ lastDashSplit_key (dash_not_mem_of_isSetTok hsid)⟩

theorem desktopSets_pairs_nodup (assets : List Asset) :
    ((groupAssetsIntoDesktopSets assets).desktopSets.map
      (fun s => (s.financialYear, s.setId))).Nodup := by
  rw [groupAssets_desktopSets]
  have hperm : (List.insertionSort setLe ((setsMapOf assets).map buildSet)).map
      (fun s => (s.financialYear, s.setId)) |>.Perm
      (((setsMapOf assets).map buildSet).map (fun s => (s.financialYear, s.setId))) :=
    (List.perm_insertionSort setLe _).map _
  refine hperm.symm.nodup ?_
  rw [List.map_map]
  have heq : ((fun s => (s.financialYear, s.setId)) ∘ buildSet) =
      (fun e : String × List Asset => jsLastDashSplit e.1) := by
    funext e
    simp [buildSet_financialYear, buildSet_setId, Function.comp]
  rw [heq, show (fun e : String × List Asset => jsLastDashSplit e.1) =
    (jsLastDashSplit ∘ Prod.fst) from rfl, ← List.map_map]
  refine List.Nodup.map_on ?_ (setsMapOf_good assets).2
  intro k1 h1 k2 h2 heq2
  obtain ⟨fy1, sid1, hk1, hs1⟩ := setsMapOf_keys_wf h1
  obtain ⟨fy2, sid2, hk2, hs2⟩ := setsMapOf_keys_wf h2
  rw [hs1, hs2] at heq2
  obtain ⟨hfy, hsid⟩ := Prod.mk.injEq .. ▸ heq2
  rw [hk1, hk2, hfy, hsid]

/-- C1: for every input string, after trimming, if it matches the grammar
`SSBAS/Type/FY/SetId` case-insensitively (`Type` one of `Mo`, `Ko`, `Ro`,
`Co`; `FY` four digits, hyphen, two digits; `SetId` a `T` and one or more
digits), `parseAssetTag` returns `isPeripheral = true` with the literal
matched substrings (case preserved); for every other string it returns the
all-`null` record with `isPeripheral = false`; and `isPeripheral` is true
iff all three fields are non-null. -/
theorem spec_C1 (s : String) :
    (∀ ty fy sid : List Char, grammarSplit (jsTrim s) ty fy sid →
      parseAssetTag s = ⟨some ⟨ty⟩, some ⟨fy⟩, some ⟨sid⟩, true⟩) ∧
    ((¬ ∃ ty fy sid : List Char, grammarSplit (jsTrim s) ty fy sid) →
      parseAssetTag s = ⟨none, none, none, false⟩) ∧
    ((parseAssetTag s).isPeripheral = true ↔
      (parseAssetTag s).type ≠ none ∧ (parseAssetTag s).financialYear ≠ none ∧
        (parseAssetTag s).setId ≠ none) := by
  refine ⟨?_, ?_, ?_⟩
  · intro ty fy sid hg
    obtain ⟨pre, hl, hpre, hty, hfy, hsid⟩ := hg
    exact parseAssetTag_eq_of_matchTag_some
      (matchTag_eq_some_iff.mpr ⟨pre, hl, hpre, hty, hfy, hsid⟩)
  · intro hniex
    rcases hm : matchTag (jsTrim s).data with _ | ⟨t, f, i⟩
    · exact parseAssetTag_eq_of_matchTag_none hm
    · exfalso
      apply hniex
      obtain ⟨pre, hl, hpre, hty, hfy, hsid⟩ := matchTag_eq_some_iff.mp hm
      exact ⟨t, f, i, pre, hl, hpre, hty, hfy, hsid⟩
  · rcases hm : matchTag (jsTrim s).data with _ | ⟨⟨t, f, i⟩⟩
    · rw [parseAssetTag_eq_of_matchTag_none hm]
      simp
    · rw [parseAssetTag_eq_of_matchTag_some hm]
      simp

/-- Witness for C1 at the conforming tag `SSBAS/Mo/2025-26/T01` and the
non-conforming tag `RANDOM-001`. -/
theorem spec_C1_witness :
    grammarSplit (jsTrim "SSBAS/Mo/2025-26/T01") "Mo".data "2025-26".data "T01".data ∧
    parseAssetTag "SSBAS/Mo/2025-26/T01" = ⟨some "Mo", some "2025-26", some "T01", true⟩ ∧
    (¬ ∃ ty fy sid : List Char, grammarSplit (jsTrim "RANDOM-001") ty fy sid) ∧
    parseAssetTag "RANDOM-001" = ⟨none, none, none, false⟩ := by
  have hg : grammarSplit (jsTrim "SSBAS/Mo/2025-26/T01") "Mo".data "2025-26".data "T01".data :=
    ⟨"SSBAS".data, by decide, by decide, by decide, by decide, by decide⟩
  have hmnone : matchTag (jsTrim "RANDOM-001").data = none := by decide
  have hne : ¬ ∃ ty fy sid : List Char, grammarSplit (jsTrim "RANDOM-001") ty fy sid := by
    rintro ⟨ty, fy, sid, pre, hl, hpre, hty, hfy, hsid⟩
    have hsome := matchTag_eq_some_iff.mpr ⟨pre, hl, hpre, hty, hfy, hsid⟩
    rw [hmnone] at hsome
    exact Option.noConfusion hsome
  exact ⟨hg, (spec_C1 "SSBAS/Mo/2025-26/T01").1 _ _ _ hg, hne,
    (spec_C1 "RANDOM-001").2.1 hne⟩

/-- C9: `parseAssetTag` and `groupAssetsIntoDesktopSets` are total Lean
functions (so they never throw); on the empty array the grouping returns
two empty lists; every parse is either a conforming result or the all-null
record; and when no tag conforms, all input assets come back in
`ungroupedAssets` with `desktopSets` empty. -/
theorem spec_C9 :
    groupAssetsIntoDesktopSets [] = ⟨[], []⟩ ∧
    (∀ s : String, (parseAssetTag s).isPeripheral = true ∨
      parseAssetTag s = ⟨none, none, none, false⟩) ∧
    (∀ assets : List Asset,
      (∀ a ∈ assets, (parseAssetTag a.assetTagging).isPeripheral = false) →
      groupAssetsIntoDesktopSets assets = ⟨[], assets⟩) := by
  refine ⟨rfl, ?_, ?_⟩
  · intro s
    rcases hp : (parseAssetTag s).isPeripheral with _ | _
    · exact Or.inr (parse_not_peripheral_shape hp)
    · exact Or.inl rfl
  · intro assets h
    have h1 : assets.filter (fun a => (parseAssetTag a.assetTagging).isPeripheral) = [] := by
      rw [List.filter_eq_nil_iff]
      intro a ha
      simp [h a ha]
    have h2 : assets.filter (fun a => !(parseAssetTag a.assetTagging).isPeripheral) = assets := by
      rw [List.filter_eq_self]
      intro a ha
      simp [h a ha]
    have h3 : setsMapOf assets = [] := by
      rw [setsMapOf, h1]
      rfl
    calc groupAssetsIntoDesktopSets assets
        = ⟨List.insertionSort setLe ((setsMapOf assets).map buildSet),
            assets.filter (fun a => !(parseAssetTag a.assetTagging).isPeripheral)⟩ := rfl
      _ = ⟨[], assets⟩ := by
            rw [h2, h3]
            rfl

/-- Witness for C9 on a one-element list whose tag does not conform. -/
theorem spec_C9_witness :
    (∀ a ∈ [({ assetTagging := "RANDOM-001" } : Asset)],
      (parseAssetTag a.assetTagging).isPeripheral = false) ∧
    groupAssetsIntoDesktopSets [({ assetTagging := "RANDOM-001" } : Asset)] =
      ⟨[], [({ assetTagging := "RANDOM-001" } : Asset)]⟩ := by
  have h : ∀ a ∈ [({ assetTagging := "RANDOM-001" } : Asset)],
      (parseAssetTag a.assetTagging).isPeripheral = false := by decide
  exact ⟨h, spec_C9.2.2 _ h⟩

/-- C8: `getSetIdentifier` returns the composite bucketing key
`financialYear ++ "-" ++ setId` exactly for conforming tags and `null`
otherwise; splitting such a key at its last hyphen recovers the pair; and
every produced `DesktopSet` carries exactly the pair whose composite equals
`getSetIdentifier` of each of its members. -/
theorem spec_C8 (tag : String) :
    (∀ ty fy sid : String,
      parseAssetTag tag = ⟨some ty, some fy, some sid, true⟩ →
      getSetIdentifier tag = some (fy ++ "-" ++ sid) ∧
        jsLastDashSplit (fy ++ "-" ++ sid) = (fy, sid)) ∧
    ((parseAssetTag tag).isPeripheral = false → getSetIdentifier tag = none) ∧
    (∀ assets : List Asset, ∀ s ∈ (groupAssetsIntoDesktopSets assets).desktopSets,
      ∀ a ∈ s.allAssets,
        getSetIdentifier a.assetTagging = some (s.financialYear ++ "-" ++ s.setId)) := by
  refine ⟨?_, ?_, ?_⟩
  · intro ty fy sid hp
    obtain ⟨-, hfy, hsid⟩ := parse_tokens hp
    exact ⟨by simp [getSetIdentifier, hp, isSetTok_ne_empty hsid, isFYTok_ne_empty hfy],
      lastDashSplit_key (dash_not_mem_of_isSetTok hsid)⟩
  · intro hp
    simp [getSetIdentifier, parse_not_peripheral_shape hp]
  · intro assets s hs a ha
    rw [mem_desktopSets] at hs
    obtain ⟨e, he, rfl⟩ := hs
    rw [buildSet_allAssets] at ha
    obtain ⟨ty, hp⟩ := goodEntry_members he a ha
    obtain ⟨-, hfy, hsid⟩ := parse_tokens hp
    rw [buildSet_financialYear, buildSet_setId]
    simp [getSetIdentifier, hp, isSetTok_ne_empty hsid, isFYTok_ne_empty hfy]

/-- Witness for C8 at a conforming and a non-conforming tag. -/
theorem spec_C8_witness :
    parseAssetTag "SSBAS/Mo/2025-26/T01" = ⟨some "Mo", some "2025-26", some "T01", true⟩ ∧
    getSetIdentifier "SSBAS/Mo/2025-26/T01" = some ("2025-26" ++ "-" ++ "T01") ∧
    jsLastDashSplit ("2025-26" ++ "-" ++ "T01") = ("2025-26", "T01") ∧
    (parseAssetTag "RANDOM-001").isPeripheral = false ∧
    getSetIdentifier "RANDOM-001" = none := by
  have hp : parseAssetTag "SSBAS/Mo/2025-26/T01" =
      ⟨some "Mo", some "2025-26", some "T01", true⟩ := by decide
  have h1 := (spec_C8 "SSBAS/Mo/2025-26/T01").1 "Mo" "2025-26" "T01" hp
  have hp2 : (parseAssetTag "RANDOM-001").isPeripheral = false := by decide
  exact ⟨hp, h1.1, h1.2, hp2, (spec_C8 "RANDOM-001").2.1 hp2⟩

instance : Inhabited DesktopSet :=
  ⟨⟨"", "", "", [], [], 0, none, 0, true⟩⟩

theorem headI_mem {α : Type} [Inhabited α] {l : List α} (h : l ≠ []) : l.headI ∈ l := by
  rcases l with _ | ⟨a, t⟩
  · exact absurd rfl h
  · simp

/-- Example input: a three-component set with two distinct locations and a
cost recorded on the first component only. -/
def exMixed : List Asset :=
  [{ assetTagging := "SSBAS/Mo/2025-26/T01", location := some "Lab A",
     originalCost := some "1000" },
   { assetTagging := "SSBAS/Ko/2025-26/T01", location := some "Lab A",
     originalCost := some "2000" },
   { assetTagging := "SSBAS/Ro/2025-26/T01", location := some "Lab B" }]

/-- C10: every returned `DesktopSet` has a non-empty `allAssets`, and every
asset in it parses as a peripheral whose financial year and set id equal the
set's own key fields. -/
theorem spec_C10 (assets : List Asset) :
    ∀ s ∈ (groupAssetsIntoDesktopSets assets).desktopSets,
      s.allAssets ≠ [] ∧
      ∀ a ∈ s.allAssets, ∃ ty : String,
        parseAssetTag a.assetTagging =
          ⟨some ty, some s.financialYear, some s.setId, true⟩ := by
  intro s hs
  rw [mem_desktopSets] at hs
  obtain ⟨e, he, rfl⟩ := hs
  rw [buildSet_allAssets]
  refine ⟨((setsMapOf_good assets).1 e he).1, ?_⟩
  intro a ha
  rw [buildSet_financialYear, buildSet_setId]
  exact goodEntry_members he a ha

/-- Witness for C10 on a concrete three-component input. -/
theorem spec_C10_witness :
    ((groupAssetsIntoDesktopSets exMixed).desktopSets).headI ∈
      (groupAssetsIntoDesktopSets exMixed).desktopSets ∧
    ((groupAssetsIntoDesktopSets exMixed).desktopSets).headI.allAssets ≠ [] := by
  have hlen : ((groupAssetsIntoDesktopSets exMixed).desktopSets).length = 1 := rfl
  have hne : (groupAssetsIntoDesktopSets exMixed).desktopSets ≠ [] := by
    intro h0
    rw [h0] at hlen
    exact absurd hlen (by decide)
  exact ⟨headI_mem hne, (spec_C10 exMixed _ (headI_mem hne)).1⟩

/-- C5: per returned set, with `L` the deduplicated list of non-empty member
locations, `location` is absent when `L` is empty, is `L`'s unique element
when `L` is a singleton, and is the literal string `"Mixed Locations"` when
`L` has two or more elements. -/
theorem spec_C5 (assets : List Asset) :
    ∀ s ∈ (groupAssetsIntoDesktopSets assets).desktopSets,
      (jsDedup (bucketLocations s.allAssets) = [] → s.location = none) ∧
      (∀ x, jsDedup (bucketLocations s.allAssets) = [x] → s.location = some x) ∧
      (2 ≤ (jsDedup (bucketLocations s.allAssets)).length →
        s.location = some "Mixed Locations") := by
  intro s hs
  rw [mem_desktopSets] at hs
  obtain ⟨e, he, rfl⟩ := hs
  rw [buildSet_allAssets]
  have hloc : (buildSet e).location =
      (if bucketLocations e.2 = [] then none
       else if (jsDedup (bucketLocations e.2)).length = 1
         then some (jsDedup (bucketLocations e.2)).headI
         else some "Mixed Locations") := rfl
  refine ⟨?_, ?_, ?_⟩
  · intro h
    rw [jsDedup_eq_nil] at h
    rw [hloc, if_pos h]
  · intro x h
    have hne : ¬(bucketLocations e.2 = []) := by
      intro h0
      rw [h0] at h
      exact absurd h (by simp [jsDedup, jsDedupGo])
    rw [hloc, if_neg hne, if_pos (by rw [h]; rfl), h]
    rfl
  · intro h
    have hne : ¬(bucketLocations e.2 = []) := by
      intro h0
      rw [h0] at h
      simp [jsDedup, jsDedupGo] at h
    have hlen : ¬((jsDedup (bucketLocations e.2)).length = 1) := by omega
    rw [hloc, if_neg hne, if_neg hlen]

/-- Witness for C5: two components share `"Lab A"`, one has `"Lab B"`, and
the set's location is the literal `"Mixed Locations"`. -/
theorem spec_C5_witness :
    ((groupAssetsIntoDesktopSets exMixed).desktopSets).headI ∈
      (groupAssetsIntoDesktopSets exMixed).desktopSets ∧
    2 ≤ (jsDedup (bucketLocations
      ((groupAssetsIntoDesktopSets exMixed).desktopSets).headI.allAssets)).length ∧
    ((groupAssetsIntoDesktopSets exMixed).desktopSets).headI.location =
      some "Mixed Locations" := by
  have hlen : ((groupAssetsIntoDesktopSets exMixed).desktopSets).length = 1 := rfl
  have hne : (groupAssetsIntoDesktopSets exMixed).desktopSets ≠ [] := by
    intro h0
    rw [h0] at hlen
    exact absurd hlen (by decide)
  have h2 : 2 ≤ (jsDedup (bucketLocations
      ((groupAssetsIntoDesktopSets exMixed).desktopSets).headI.allAssets)).length := by
    decide
  exact ⟨headI_mem hne, h2, (spec_C5 exMixed _ (headI_mem hne)).2.2 h2⟩

/-- C6: per returned set, `totalCost` is computed from the first asset of
the bucket alone — the parse of its `originalCost`, or `0` when that field
is absent, empty, zero, or unparseable; later assets never influence it. -/
theorem spec_C6 (assets : List Asset) :
    ∀ s ∈ (groupAssetsIntoDesktopSets assets).desktopSets,
      s.totalCost =
        match s.allAssets.head? with
        | none => 0
        | some first =>
          match first.originalCost with
          | none => 0
          | some c => if c = "" then 0 else (jsParseFloat c).getD 0 := by
  intro s hs
  rw [mem_desktopSets] at hs
  obtain ⟨e, he, rfl⟩ := hs
  rcases e with ⟨k, bucket⟩
  rcases bucket with _ | ⟨first, rest⟩
  · rfl
  · cases hoc : first.originalCost with
    | none => simp [buildSet, buildSet_allAssets, hoc]
    | some c => simp [buildSet, buildSet_allAssets, hoc]

/-- Witness for C6 on the concrete three-component input (first cost
`"1000"`, a different second cost that is ignored). -/
theorem spec_C6_witness :
    ((groupAssetsIntoDesktopSets exMixed).desktopSets).headI ∈
      (groupAssetsIntoDesktopSets exMixed).desktopSets ∧
    ((groupAssetsIntoDesktopSets exMixed).desktopSets).headI.totalCost =
      (match ((groupAssetsIntoDesktopSets exMixed).desktopSets).headI.allAssets.head? with
        | none => 0
        | some first =>
          match first.originalCost with
          | none => 0
          | some c => if c = "" then 0 else (jsParseFloat c).getD 0) ∧
    (((groupAssetsIntoDesktopSets exMixed).desktopSets).headI.allAssets.head?.map
      (fun a => a.originalCost)) = some (some "1000") := by
  have hlen : ((groupAssetsIntoDesktopSets exMixed).desktopSets).length = 1 := rfl
  have hne : (groupAssetsIntoDesktopSets exMixed).desktopSets ≠ [] := by
    intro h0
    rw [h0] at hlen
    exact absurd hlen (by decide)
  exact ⟨headI_mem hne, spec_C6 exMixed _ (headI_mem hne), by decide⟩

/-- Example input: two assets of the same type (two monitors) in one set. -/
def exDup : List Asset :=
  [{ assetTagging := "SSBAS/Mo/2025-26/T01", serialNumber := some "A" },
   { assetTagging := "SSBAS/Mo/2025-26/T01", serialNumber := some "B" },
   { assetTagging := "SSBAS/Ko/2025-26/T01" }]

/-- C7: duplicate components never raise an error (the grouping function is
total); when two or more assets of one bucket share a peripheral type, the
corresponding `components` property is exactly the last bucket asset stored
under that property name (last-write-wins), it is filled, and all the
duplicates remain in `allAssets` (`allAssets` is the whole bucket, compare
`spec_C2`). -/
theorem spec_C7 (assets : List Asset) :
    ∀ s ∈ (groupAssetsIntoDesktopSets assets).desktopSets,
      ∀ ty : String,
        2 ≤ (s.allAssets.filter
          (fun a => (parseAssetTag a.assetTagging).type = some ty)).length →
        (s.allAssets.filter (fun a => assetSlotKey a =
            some ((getComponentKey ty).getD "undefined"))) ≠ [] ∧
        objLookup s.components ((getComponentKey ty).getD "undefined") =
          (s.allAssets.filter (fun a => assetSlotKey a =
            some ((getComponentKey ty).getD "undefined"))).getLast? := by
  intro s hs ty hcount
  rw [mem_desktopSets] at hs
  obtain ⟨e, he, rfl⟩ := hs
  rw [buildSet_allAssets] at hcount ⊢
  rw [buildSet_components, buildComponents_lookup]
  refine ⟨?_, rfl⟩
  have hpos : 0 < (e.2.filter
      (fun a => (parseAssetTag a.assetTagging).type = some ty)).length := by
    omega
  obtain ⟨a, ha0⟩ := List.exists_mem_of_length_pos hpos
  rw [List.mem_filter] at ha0
  obtain ⟨ha, hty⟩ := ha0
  rw [decide_eq_true_eq] at hty
  obtain ⟨ty2, hp⟩ := goodEntry_members he a ha
  have hty2 : ty2 = ty := by
    rw [hp] at hty
    simpa using hty
  subst hty2
  have htok := (parse_tokens hp).1
  obtain ⟨t1, t2, hshape, -, -⟩ := isTypeTok_shape htok
  have htyne : ¬(ty2 = "") := by
    intro h0
    rw [h0] at hshape
    exact absurd hshape (by simp)
  intro hnil
  rw [List.filter_eq_nil_iff] at hnil
  exact hnil a ha (by simp [assetSlotKey, hp, htyne])

/-- Witness for C7: two monitors in one bucket; the `monitor` slot holds the
second one. -/
theorem spec_C7_witness :
    ((groupAssetsIntoDesktopSets exDup).desktopSets).headI ∈
      (groupAssetsIntoDesktopSets exDup).desktopSets ∧
    2 ≤ (((groupAssetsIntoDesktopSets exDup).desktopSets).headI.allAssets.filter
      (fun a => (parseAssetTag a.assetTagging).type = some "Mo")).length ∧
    objLookup ((groupAssetsIntoDesktopSets exDup).desktopSets).headI.components
        ((getComponentKey "Mo").getD "undefined") =
      (((groupAssetsIntoDesktopSets exDup).desktopSets).headI.allAssets.filter
        (fun a => assetSlotKey a = some ((getComponentKey "Mo").getD "undefined"))).getLast? ∧
    objLookup ((groupAssetsIntoDesktopSets exDup).desktopSets).headI.components "monitor" =
      some { assetTagging := "SSBAS/Mo/2025-26/T01", serialNumber := some "B" } := by
  have hlen : ((groupAssetsIntoDesktopSets exDup).desktopSets).length = 1 := rfl
  have hne : (groupAssetsIntoDesktopSets exDup).desktopSets ≠ [] := by
    intro h0
    rw [h0] at hlen
    exact absurd hlen (by decide)
  have h2 : 2 ≤ (((groupAssetsIntoDesktopSets exDup).desktopSets).headI.allAssets.filter
      (fun a => (parseAssetTag a.assetTagging).type = some "Mo")).length := by decide
  exact ⟨headI_mem hne, h2, (spec_C7 exDup _ (headI_mem hne) "Mo" h2).2, by decide⟩

/-- C2: `groupAssetsIntoDesktopSets` partitions its input by
`parseAssetTag(assetTagging).isPeripheral`: the non-conforming assets are
exactly `ungroupedAssets` (unchanged), never inside a set; each conforming
asset lies in exactly one returned set's `allAssets` and not in
`ungroupedAssets`; and the sets' `allAssets` together with
`ungroupedAssets` are a permutation of the input. -/
theorem spec_C2 (assets : List Asset) :
    (groupAssetsIntoDesktopSets assets).ungroupedAssets =
      assets.filter (fun a => !(parseAssetTag a.assetTagging).isPeripheral) ∧
    ((((groupAssetsIntoDesktopSets assets).desktopSets.map
        DesktopSet.allAssets).flatten) ++
      (groupAssetsIntoDesktopSets assets).ungroupedAssets).Perm assets ∧
    (∀ a ∈ assets, (parseAssetTag a.assetTagging).isPeripheral = false →
      a ∈ (groupAssetsIntoDesktopSets assets).ungroupedAssets ∧
      ∀ s ∈ (groupAssetsIntoDesktopSets assets).desktopSets, a ∉ s.allAssets) ∧
    (∀ a ∈ assets, (parseAssetTag a.assetTagging).isPeripheral = true →
      a ∉ (groupAssetsIntoDesktopSets assets).ungroupedAssets ∧
      ∃ s ∈ (groupAssetsIntoDesktopSets assets).desktopSets, a ∈ s.allAssets ∧
        ∀ t ∈ (groupAssetsIntoDesktopSets assets).desktopSets,
          a ∈ t.allAssets → t = s) := by
  have hflat : (((groupAssetsIntoDesktopSets assets).desktopSets.map
      DesktopSet.allAssets).flatten).Perm
      (assets.filter (fun a => (parseAssetTag a.assetTagging).isPeripheral)) := by
    rw [groupAssets_desktopSets]
    refine (((List.perm_insertionSort setLe
      ((setsMapOf assets).map buildSet)).map DesktopSet.allAssets).flatten).trans ?_
    rw [List.map_map,
      show (DesktopSet.allAssets ∘ buildSet) = (Prod.snd : String × List Asset → List Asset)
        from funext buildSet_allAssets]
    exact setsMapOf_flatten assets
  refine ⟨groupAssets_ungrouped assets, ?_, ?_, ?_⟩
  · rw [groupAssets_ungrouped]
    exact (hflat.append_right _).trans (List.filter_append_perm _ assets)
  · intro a ha hfalse
    constructor
    · rw [groupAssets_ungrouped]
      exact List.mem_filter.mpr ⟨ha, by simp [hfalse]⟩
    · intro s hs hmem
      rw [mem_desktopSets] at hs
      obtain ⟨e, he, rfl⟩ := hs
      rw [buildSet_allAssets] at hmem
      obtain ⟨ty, hp⟩ := goodEntry_members he a hmem
      rw [hp] at hfalse
      exact Bool.noConfusion hfalse
  · intro a ha htrue
    constructor
    · rw [groupAssets_ungrouped]
      intro hmem
      rw [List.mem_filter] at hmem
      rw [htrue] at hmem
      exact Bool.noConfusion hmem.2
    · have hma : a ∈ (((groupAssetsIntoDesktopSets assets).desktopSets.map
          DesktopSet.allAssets).flatten) := by
        rw [hflat.mem_iff]
        exact List.mem_filter.mpr ⟨ha, by simp [htrue]⟩
      rw [List.mem_flatten] at hma
      obtain ⟨bl, hbl, hab⟩ := hma
      rw [List.mem_map] at hbl
      obtain ⟨s, hs, rfl⟩ := hbl
      refine ⟨s, hs, hab, ?_⟩
      intro t ht hat
      have hnd := desktopSets_pairs_nodup assets
      refine List.inj_on_of_nodup_map hnd ht hs ?_
      rw [mem_desktopSets] at hs ht
      obtain ⟨e1, he1, rfl⟩ := hs
      obtain ⟨e2, he2, rfl⟩ := ht
      rw [buildSet_allAssets] at hab hat
      obtain ⟨ty1, hp1⟩ := goodEntry_members he1 a hab
      obtain ⟨ty2, hp2⟩ := goodEntry_members he2 a hat
      rw [hp1] at hp2
      simp only [PeripheralInfo.mk.injEq, Option.some.injEq] at hp2
      rw [buildSet_financialYear, buildSet_setId, buildSet_financialYear, buildSet_setId]
      rw [Prod.mk.injEq]
      exact ⟨hp2.2.1.symm, hp2.2.2.1.symm⟩

/-- Witness for C2 on a two-element input: one conforming, one not. -/
theorem spec_C2_witness :
    (({ assetTagging := "RANDOM-001" } : Asset) ∈
        ([{ assetTagging := "SSBAS/Mo/2025-26/T01" },
          { assetTagging := "RANDOM-001" }] : List Asset) ∧
      (parseAssetTag "RANDOM-001").isPeripheral = false ∧
      ({ assetTagging := "RANDOM-001" } : Asset) ∈
        (groupAssetsIntoDesktopSets
          [{ assetTagging := "SSBAS/Mo/2025-26/T01" },
           { assetTagging := "RANDOM-001" }]).ungroupedAssets) ∧
    (({ assetTagging := "SSBAS/Mo/2025-26/T01" } : Asset) ∈
        ([{ assetTagging := "SSBAS/Mo/2025-26/T01" },
          { assetTagging := "RANDOM-001" }] : List Asset) ∧
      (parseAssetTag "SSBAS/Mo/2025-26/T01").isPeripheral = true ∧
      ∃ s ∈ (groupAssetsIntoDesktopSets
          [{ assetTagging := "SSBAS/Mo/2025-26/T01" },
           { assetTagging := "RANDOM-001" }]).desktopSets,
        ({ assetTagging := "SSBAS/Mo/2025-26/T01" } : Asset) ∈ s.allAssets) := by
  have hm1 : ({ assetTagging := "RANDOM-001" } : Asset) ∈
      ([{ assetTagging := "SSBAS/Mo/2025-26/T01" },
        { assetTagging := "RANDOM-001" }] : List Asset) := by decide
  have hm2 : ({ assetTagging := "SSBAS/Mo/2025-26/T01" } : Asset) ∈
      ([{ assetTagging := "SSBAS/Mo/2025-26/T01" },
        { assetTagging := "RANDOM-001" }] : List Asset) := by decide
  have hf : (parseAssetTag "RANDOM-001").isPeripheral = false := by decide
  have ht : (parseAssetTag "SSBAS/Mo/2025-26/T01").isPeripheral = true := by decide
  have h3 := (spec_C2 _).2.2.1 _ hm1 hf
  have h4 := (spec_C2 _).2.2.2 _ hm2 ht
  obtain ⟨s, hs, hmem, -⟩ := h4.2
  exact ⟨⟨hm1, hf, h3.1⟩, hm2, ht, s, hs, hmem⟩

/-- Example input: one monitor in each of two financial years. -/
def exYears : List Asset :=
  [{ assetTagging := "SSBAS/Mo/2024-25/T1" },
   { assetTagging := "SSBAS/Mo/2025-26/T1" }]

/-- Example input: one financial year with set ids `T2` and `T10`. -/
def exSetIds : List Asset :=
  [{ assetTagging := "SSBAS/Mo/2025-26/T2" },
   { assetTagging := "SSBAS/Mo/2025-26/T10" }]

/-- C4: the returned `desktopSets` list is sorted with primary key
`financialYear` descending and secondary key `setId` ascending, both by
lexicographic (code-point) string comparison; in particular "2025-26"
precedes "2024-25", and within one year `"T10"` precedes `"T2"`. -/
theorem spec_C4 :
    (∀ assets : List Asset,
      (groupAssetsIntoDesktopSets assets).desktopSets.Pairwise (fun x y =>
        lexCmp y.financialYear.data x.financialYear.data = .lt ∨
        (x.financialYear = y.financialYear ∧
          lexCmp x.setId.data y.setId.data ≠ .gt))) ∧
    ((groupAssetsIntoDesktopSets exYears).desktopSets.map
      (fun s => s.financialYear)) = ["2025-26", "2024-25"] ∧
    ((groupAssetsIntoDesktopSets exSetIds).desktopSets.map
      (fun s => s.setId)) = ["T10", "T2"] := by
  refine ⟨?_, by decide, by decide⟩
  intro assets
  rw [groupAssets_desktopSets]
  refine (List.sorted_insertionSort setLe
    ((setsMapOf assets).map buildSet)).imp ?_
  intro x y hxy
  rw [setLe_iff] at hxy
  rcases hxy with h | ⟨h1, h2⟩
  · exact Or.inl h
  · rw [lexCmp_eq_eq] at h1
    exact Or.inr ⟨String.ext h1.symm, h2⟩

/-- The four-component example of the specification: monitor, keyboard,
mouse and CPU of set `T01` in year 2025-26, none with a location. -/
def exC3 : List Asset :=
  [{ assetTagging := "SSBAS/Mo/2025-26/T01" },
   { assetTagging := "SSBAS/Ko/2025-26/T01" },
   { assetTagging := "SSBAS/Ro/2025-26/T01" },
   { assetTagging := "SSBAS/Co/2025-26/T01" }]

/-- C3 (evaluation at the claim's input): the four `T01` assets yield one
set with `completeness = 100`, all four slots filled, no ungrouped assets
and no location — but `displayName` is `"Desktop Set 01 (2025-26)"`, since
`setId.replace('T', '')` keeps the leading zero, and not the
`"Desktop Set 1 (2025-26)"` documented in `DESKTOP_GROUPING_FORMAT.md` and
in the `DesktopSet` interface comment. -/
theorem spec_C3_eval :
    (groupAssetsIntoDesktopSets exC3).ungroupedAssets = [] ∧
    (groupAssetsIntoDesktopSets exC3).desktopSets.map (fun s => s.displayName) =
      ["Desktop Set 01 (2025-26)"] ∧
    "Desktop Set 01 (2025-26)" ≠ "Desktop Set 1 (2025-26)" ∧
    (groupAssetsIntoDesktopSets exC3).desktopSets.map (fun s => s.completeness) =
      [100] ∧
    (groupAssetsIntoDesktopSets exC3).desktopSets.map (fun s =>
      ((objLookup s.components "monitor").isSome,
       (objLookup s.components "keyboard").isSome,
       (objLookup s.components "mouse").isSome,
       (objLookup s.components "cpu").isSome)) = [(true, true, true, true)] ∧
    (groupAssetsIntoDesktopSets exC3).desktopSets.map (fun s => s.location) = [none] := by
  refine ⟨by decide, by decide, by decide, ?_, by decide, by decide⟩
  have h : (groupAssetsIntoDesktopSets exC3).desktopSets.map (fun s => s.completeness) =
      [(((4 : ℕ) : ℚ) / 4) * 100] := rfl
  rw [h, show ((((4 : ℕ) : ℚ) / 4) * 100) = 100 from by norm_num]
